import Mathlib

set_option autoImplicit false

/-!
Shallow embedding of the core of comstar (a content-addressed directory
synchronization tool) and proofs of the specification's claims about it.

The embedding models:
- the manifest data model (`Manifest`, `ManifestEntry`) from src/manifest.rs;
- the directory walker from src/util.rs (ignore predicate plus the forced
  exclusion of `comstar.json`);
- manifest generation (`generate_manifest`, src/manifest.rs);
- manifest-vs-tree validation (`verify_manifest`, src/validate.rs) and
  manifest-vs-manifest diffing (`diff_manifests`, src/validate.rs);
- the push diff and work list (`gcs_diff_manifests`, `push_work`,
  src/push/gcs.rs);
- the sync orchestrator (`sync_manifest`, src/sync.rs) over an abstract
  remote store;
- the event protocol (src/events.rs) and the bounded-concurrency pipeline
  scheduler of the push pipeline (src/push/gcs.rs).

File contents are modelled as `String`s, the SHA-512 digest as an arbitrary
function parameter `hash : String → String` (content to hex digest), URLs as
strings with join modelled as concatenation, and timestamps as `Nat`.
-/

/-- Progress event type, from src/events.rs (enum `Event`). -/
inductive Event where
  | closeStream : Event
  | fileStarted (name : String) (size : Option Nat) : Event
  | fileProgress (name : String) (bytes : Nat) : Event
  | fileDone (name : String) : Event
deriving DecidableEq, Repr

/-- One manifest row, from src/manifest.rs (`ManifestEntry`): relative path,
lowercase-hex SHA-512 digest, and source URL. -/
structure ManifestEntry where
  path : String
  sha512 : String
  source : String
deriving DecidableEq, Repr

/-- The manifest document, from src/manifest.rs (`Manifest`). -/
structure Manifest where
  source : String
  generated_at : Nat
  entries : List ManifestEntry
deriving DecidableEq, Repr

/-- A local directory tree: an association list of (relative path, file
content). Real directories have one content per path; theorems that need
uniqueness take a `Nodup` hypothesis on the keys. -/
abbrev Dir := List (String × String)

/-- The directory walker, from src/util.rs (`get_walker`): enumerates the
files of the tree, honoring the ignore rules (modelled as an arbitrary
predicate `ign`, fed from `.comstarignore`) and, via the override
`!comstar.json` added unconditionally in `get_walker`, always excluding the
file literally named `comstar.json` at the root. -/
def get_walker (ign : String → Bool) (d : Dir) : List (String × String) :=
  d.filter (fun pc => pc.1 != "comstar.json" && !(ign pc.1))

/-- Manifest generation, from src/manifest.rs (`generate_manifest`): walk the
directory, hash every file, and build one entry per walked file with its
relative path, digest, and `base ⊕ path` source URL; the manifest's own
source is `base ⊕ comstar.json`. -/
def generate_manifest (hash : String → String) (ign : String → Bool)
    (base : String) (now : Nat) (d : Dir) : Manifest :=
  { source := base ++ "comstar.json"
    generated_at := now
    entries := (get_walker ign d).map (fun pc =>
      { path := pc.1, sha512 := hash pc.2, source := base ++ pc.1 }) }

/-- Difference kind, from src/validate.rs (`DifferenceType`). -/
inductive DifferenceType where
  | fileMissing (entry : ManifestEntry) : DifferenceType
  | hashMismatch (upstream : ManifestEntry) (localSha : String) : DifferenceType
  | unknownFile : DifferenceType
deriving DecidableEq, Repr

/-- A single validation difference, from src/validate.rs
(`ValidationDifference`). -/
structure ValidationDifference where
  ty : DifferenceType
  path : String
deriving DecidableEq, Repr

/-- The list of paths of a manifest's entries (the path set used for
`Unknown` detection in src/validate.rs `verify_manifest`). -/
def manifestPaths (m : Manifest) : List String := m.entries.map (·.path)

/-- The per-entry phase of src/validate.rs `verify_manifest` (lines 130-166):
for each manifest entry, `FileMissing` if the local file does not exist, and
`HashMismatch` if the local file hashes differently from the entry's digest. -/
def verify_entries (hash : String → String) (m : Manifest) (d : Dir) :
    List ValidationDifference :=
  m.entries.filterMap (fun e =>
    match List.lookup e.path d with
    | none => some { ty := .fileMissing e, path := e.path }
    | some c =>
      if hash c != e.sha512 then
        some { ty := .hashMismatch e (hash c), path := e.path }
      else none)

/-- The force-only phase of src/validate.rs `verify_manifest` (lines
169-198): walk the tree and report `UnknownFile` for every walked file whose
path is not among the manifest's entry paths. -/
def verify_unknowns (ign : String → Bool) (m : Manifest) (d : Dir) :
    List ValidationDifference :=
  (get_walker ign d).filterMap (fun pc =>
    if (manifestPaths m).contains pc.1 then none
    else some { ty := .unknownFile, path := pc.1 })

/-- Manifest-vs-tree validation, from src/validate.rs (`verify_manifest`):
the per-entry phase, followed by the unknown-file walk only when `force` is
set. -/
def verify_manifest (hash : String → String) (ign : String → Bool)
    (m : Manifest) (d : Dir) (force : Bool) : List ValidationDifference :=
  verify_entries hash m d ++ (if force then verify_unknowns ign m d else [])

/-- C6: every manifest produced by `generate_manifest` has no entry whose
path is `comstar.json`, for every ignore predicate (the exclusion comes from
the walker's unconditional override, not from the ignore file). -/
theorem generate_manifest_excludes_comstar (hash : String → String)
    (ign : String → Bool) (base : String) (now : Nat) (d : Dir) :
    ((generate_manifest hash ign base now d).entries.all
      (fun e => e.path != "comstar.json")) = true := by
  simp only [generate_manifest, get_walker, List.all_eq_true, List.mem_map,
    List.mem_filter, Bool.and_eq_true, bne_iff_ne, ne_eq]
  rintro e ⟨pc, ⟨_, hne, _⟩, rfl⟩
  simpa using hne

/-- Association-list lookup finds the stored content when the directory's
paths are unique. -/
theorem lookup_eq_some_of_mem_of_nodup {d : Dir} {p c : String}
    (hnd : (d.map Prod.fst).Nodup) (hm : (p, c) ∈ d) :
    List.lookup p d = some c := by
  induction d with
  | nil => cases hm
  | cons hd tl ih =>
    obtain ⟨q, cq⟩ := hd
    simp only [List.map_cons, List.nodup_cons] at hnd
    rcases List.mem_cons.mp hm with heq | htl
    · cases heq
      simp [List.lookup]
    · have hpq : p ≠ q := by
        rintro rfl
        exact hnd.1 (List.mem_map.mpr ⟨(p, c), htl, rfl⟩)
      have hb : (p == q) = false := beq_eq_false_iff_ne.mpr hpq
      simpa [List.lookup, hb] using ih hnd.2 htl

/-- Every difference produced by the per-entry phase of validation is a
`FileMissing` or a `HashMismatch`, never `UnknownFile`. -/
theorem verify_entries_not_unknown (hash : String → String) (m : Manifest)
    (d : Dir) : ∀ df ∈ verify_entries hash m d,
    df.ty ≠ DifferenceType.unknownFile := by
  intro df hdf
  rw [verify_entries, List.mem_filterMap] at hdf
  obtain ⟨e, _, he⟩ := hdf
  split at he
  · cases he
    simp
  · split at he
    · cases he
      simp
    · cases he

/-- Projection of the unknown-file phase: its differences are exactly the
walked paths outside the manifest's path set, in walk order. -/
theorem verify_unknowns_paths (ign : String → Bool) (m : Manifest) (d : Dir) :
    (verify_unknowns ign m d).map (·.path)
      = ((get_walker ign d).map Prod.fst).filter
          (fun p => !(manifestPaths m).contains p) := by
  rw [verify_unknowns]
  induction get_walker ign d with
  | nil => rfl
  | cons hd tl ih =>
    by_cases hc : hd.1 ∈ manifestPaths m
    · have hcb : (manifestPaths m).contains hd.1 = true :=
        List.elem_eq_true_of_mem hc
      simp only [List.filterMap_cons, List.filter_cons, List.map_cons, hcb,
        if_true, Bool.not_true, if_false]
      simpa using ih
    · have hcb : (manifestPaths m).contains hd.1 = false := by
        simpa using hc
      simp only [List.filterMap_cons, List.filter_cons, List.map_cons, hcb,
        Bool.not_false, if_true, if_false]
      simpa using ih

/-- Every difference produced by the unknown-file phase has kind
`UnknownFile`. -/
theorem verify_unknowns_ty (ign : String → Bool) (m : Manifest) (d : Dir) :
    ∀ df ∈ verify_unknowns ign m d, df.ty = DifferenceType.unknownFile := by
  intro df hdf
  rw [verify_unknowns, List.mem_filterMap] at hdf
  obtain ⟨pc, _, he⟩ := hdf
  split at he
  · cases he
  · cases he
    rfl

/-- C5: unknown detection requires force. Validation with `force = false`
reports zero `UnknownFile` differences; validation with `force = true`
reports an `UnknownFile` difference exactly for the walked files whose path
is not listed in the manifest (differences for listed entries, matching or
mismatching, are never `UnknownFile`). -/
theorem validate_unknown_requires_force (hash : String → String)
    (ign : String → Bool) (m : Manifest) (d : Dir) :
    ((verify_manifest hash ign m d false).all
        (fun df => df.ty != DifferenceType.unknownFile)) = true
    ∧ ((verify_manifest hash ign m d true).filter
        (fun df => df.ty == DifferenceType.unknownFile)).map (·.path)
      = ((get_walker ign d).map Prod.fst).filter
          (fun p => !(manifestPaths m).contains p) := by
  constructor
  · rw [List.all_eq_true]
    intro df hdf
    have hdf' : df ∈ verify_entries hash m d := by
      simpa [verify_manifest] using hdf
    simpa [bne_iff_ne] using verify_entries_not_unknown hash m d df hdf'
  · have hm : verify_manifest hash ign m d true
        = verify_entries hash m d ++ verify_unknowns ign m d := by
      simp [verify_manifest]
    rw [hm, List.filter_append]
    have h1 : (verify_entries hash m d).filter
        (fun df => df.ty == DifferenceType.unknownFile) = [] := by
      rw [List.filter_eq_nil_iff]
      intro df hdf
      simpa using verify_entries_not_unknown hash m d df hdf
    have h2 : (verify_unknowns ign m d).filter
        (fun df => df.ty == DifferenceType.unknownFile)
        = verify_unknowns ign m d := by
      rw [List.filter_eq_self]
      intro df hdf
      simpa using verify_unknowns_ty ign m d df hdf
    rw [h1, h2, List.nil_append]
    exact verify_unknowns_paths ign m d

/-- C1: round-trip. Generating a manifest from a directory that contains no
file named `comstar.json` (and whose paths are unique, as on a real
filesystem) and validating the same directory against that manifest yields
zero differences, for either value of `force`. -/
theorem generate_then_validate_roundtrip (hash : String → String)
    (ign : String → Bool) (base : String) (now : Nat) (d : Dir) (force : Bool)
    (hnd : (d.map Prod.fst).Nodup)
    (_hcm : "comstar.json" ∉ d.map Prod.fst) :
    verify_manifest hash ign (generate_manifest hash ign base now d) d force
      = [] := by
  rw [verify_manifest, List.append_eq_nil]
  constructor
  · rw [verify_entries, List.filterMap_eq_nil_iff]
    intro e he
    rw [generate_manifest] at he
    simp only [List.mem_map] at he
    obtain ⟨pc, hpc, rfl⟩ := he
    have hmem : pc ∈ d := (List.mem_filter.mp hpc).1
    have hl : List.lookup pc.1 d = some pc.2 :=
      lookup_eq_some_of_mem_of_nodup hnd (by simpa using hmem)
    simp [hl]
  · cases force with
    | false => simp
    | true =>
      simp only [if_true]
      rw [verify_unknowns, List.filterMap_eq_nil_iff]
      intro pc hpc
      have hp : pc.1 ∈ manifestPaths (generate_manifest hash ign base now d) := by
        rw [generate_manifest, manifestPaths]
        simp only [List.map_map]
        exact List.mem_map.mpr ⟨pc, hpc, rfl⟩
      have hcb : (manifestPaths
          (generate_manifest hash ign base now d)).contains pc.1 = true :=
        List.elem_eq_true_of_mem hp
      simp only [hcb, if_true]

/-- Witness for the round-trip theorem at a concrete two-file directory. -/
theorem generate_then_validate_roundtrip_witness :
    verify_manifest (fun c => String.append c "h") (fun _ => false)
      (generate_manifest (fun c => String.append c "h") (fun _ => false)
        "file:///data/" 7 [("a.txt", "x"), ("sub/b.bin", "yy")])
      [("a.txt", "x"), ("sub/b.bin", "yy")] true = [] :=
  generate_then_validate_roundtrip (fun c => String.append c "h")
    (fun _ => false) "file:///data/" 7 [("a.txt", "x"), ("sub/b.bin", "yy")]
    true (by decide) (by decide)

/-- Last-wins entry lookup by path: the model of building a `HashMap` from a
manifest's entry list (`local_map` / `remote_map` in src/push/gcs.rs
`diff_manifests` and the entry maps of src/validate.rs `diff_manifests`),
where a later entry with the same path overwrites an earlier one. -/
def entryAt (es : List ManifestEntry) (p : String) : Option ManifestEntry :=
  es.reverse.find? (fun e => e.path == p)

/-- The digest stored for a path by the entry map, when present. -/
def entrySha (es : List ManifestEntry) (p : String) : Option String :=
  (entryAt es p).map (·.sha512)

/-- The key set of the entry map: the distinct entry paths. -/
def mkeys (es : List ManifestEntry) : List String :=
  (es.map (·.path)).dedup

/-- Manifest-vs-manifest diff of src/validate.rs (`diff_manifests`, lines
62-109), used as the sync fast path: for each authority path, `HashMismatch`
when the local manifest stores a different digest and `FileMissing` when the
local manifest lacks the path; under `force`, `UnknownFile` for each local
path absent from the authority. -/
def diff_manifests (authority other : Manifest) (force : Bool) :
    List ValidationDifference :=
  ((mkeys authority.entries).filterMap (fun p =>
    match entryAt authority.entries p with
    | none => none
    | some v =>
      match entryAt other.entries p with
      | some le =>
        if le.sha512 != v.sha512 then
          some { ty := .hashMismatch v le.sha512, path := p }
        else none
      | none => some { ty := .fileMissing v, path := p }))
  ++ (if force then
        (mkeys other.entries).filterMap (fun p =>
          if (mkeys authority.entries).contains p then none
          else some { ty := .unknownFile, path := p })
      else [])

/-- One push work item, from src/push/gcs.rs (`ManifestDiff`). -/
inductive PushDiff where
  | update (path : String) : PushDiff
  | delete (path : String) : PushDiff
deriving DecidableEq, Repr

/-- The push diff, from src/push/gcs.rs (`diff_manifests`, lines 54-81):
with no remote manifest every local path is an `update` (first push);
otherwise a local path is an `update` when the remote map lacks it or stores
a different digest, and a remote path absent from the local map is a
`delete`. Paths with equal digests on both sides are omitted. -/
def gcs_diff_manifests (localMan : Manifest) (remoteMan : Option Manifest) :
    List PushDiff :=
  match remoteMan with
  | none => (mkeys localMan.entries).map .update
  | some r =>
    ((mkeys localMan.entries).filterMap (fun p =>
      match entrySha r.entries p with
      | some rs =>
        if entrySha localMan.entries p != some rs then some (.update p)
        else none
      | none => some (.update p)))
    ++ ((mkeys r.entries).filterMap (fun p =>
      if (mkeys localMan.entries).contains p then none
      else some (.delete p)))

/-- The work list executed by src/push/gcs.rs `push_dir` (lines 87-90): the
push diff, with an `update comstar.json` item appended at the end, and only
when the diff is nonempty. -/
def push_work (localMan : Manifest) (remoteMan : Option Manifest) :
    List PushDiff :=
  let diffs := gcs_diff_manifests localMan remoteMan
  if diffs.isEmpty then diffs else diffs ++ [.update "comstar.json"]

/-- The object paths uploaded by `push_dir`: the `update` items of its work
list. -/
def push_uploads (localMan : Manifest) (remoteMan : Option Manifest) :
    List String :=
  (push_work localMan remoteMan).filterMap (fun d =>
    match d with
    | .update p => some p
    | .delete _ => none)

/-- The object paths deleted by `push_dir`: the `delete` items of its work
list. -/
def push_deletes (localMan : Manifest) (remoteMan : Option Manifest) :
    List String :=
  (push_work localMan remoteMan).filterMap (fun d =>
    match d with
    | .update _ => none
    | .delete p => some p)

/-- A key of the entry map owns a stored digest. -/
theorem entrySha_isSome_of_mem_mkeys {es : List ManifestEntry} {p : String}
    (hp : p ∈ mkeys es) : ∃ s, entrySha es p = some s := by
  rw [mkeys, List.mem_dedup] at hp
  obtain ⟨e, hee, hep⟩ := List.mem_map.mp hp
  have hs : (es.reverse.find? (fun e => e.path == p)).isSome := by
    rw [List.find?_isSome]
    exact ⟨e, List.mem_reverse.mpr hee, by simp [hep]⟩
  obtain ⟨v, hv⟩ := Option.isSome_iff_exists.mp hs
  refine ⟨v.sha512, ?_⟩
  rw [entrySha, entryAt, hv]
  rfl

/-- A stored digest implies the path is a key of the entry map. -/
theorem mem_mkeys_of_entrySha_some {es : List ManifestEntry} {p s : String}
    (h : entrySha es p = some s) : p ∈ mkeys es := by
  rw [entrySha, entryAt] at h
  cases hf : es.reverse.find? (fun e => e.path == p) with
  | none => rw [hf] at h; cases h
  | some v =>
    have hv : v ∈ es.reverse := List.mem_of_find?_eq_some hf
    have hvp : v.path = p := by simpa using List.find?_some hf
    rw [mkeys, List.mem_dedup]
    exact List.mem_map.mpr ⟨v, List.mem_reverse.mp hv, hvp⟩

/-- A path whose digest agrees between the local and remote entry maps never
appears as an `update` in the push diff. -/
theorem update_not_mem_gcs_diff_of_same (l r : Manifest) (p h : String)
    (hl : entrySha l.entries p = some h) (hr : entrySha r.entries p = some h) :
    PushDiff.update p ∉ gcs_diff_manifests l (some r) := by
  intro hm
  rw [gcs_diff_manifests] at hm
  rcases List.mem_append.mp hm with h1 | h2
  · rw [List.mem_filterMap] at h1
    obtain ⟨q, _, he⟩ := h1
    split at he
    · rename_i rs hrs
      split at he
      · rename_i hb
        simp only [Option.some.injEq, PushDiff.update.injEq] at he
        subst he
        rw [hl] at hb
        rw [hr] at hrs
        simp only [Option.some.injEq] at hrs
        subst hrs
        simp at hb
      · cases he
    · rename_i hrs
      simp only [Option.some.injEq, PushDiff.update.injEq] at he
      subst he
      rw [hr] at hrs
      cases hrs
  · rw [List.mem_filterMap] at h2
    obtain ⟨q, _, he⟩ := h2
    split at he
    · cases he
    · simp at he

/-- C7: push minimality. A file whose SHA-512 digest is identical in the
local and remote manifests is never uploaded by push: only entries absent
from the remote map or with a differing digest appear as uploads (besides
the manifest document itself, whose name is never an entry path). -/
theorem push_minimality (l r : Manifest) (p h : String)
    (hl : entrySha l.entries p = some h) (hr : entrySha r.entries p = some h)
    (hcm : p ≠ "comstar.json") :
    p ∉ push_uploads l (some r) := by
  intro hmem
  rw [push_uploads, List.mem_filterMap] at hmem
  obtain ⟨dd, hd, he⟩ := hmem
  cases dd with
  | delete q => cases he
  | update q =>
    simp only [Option.some.injEq] at he
    subst he
    rw [push_work] at hd
    by_cases hemp : (gcs_diff_manifests l (some r)).isEmpty = true
    · simp only [hemp, if_true] at hd
      rw [List.isEmpty_iff] at hemp
      rw [hemp] at hd
      cases hd
    · simp only [hemp, if_false, Bool.false_eq_true] at hd
      rcases List.mem_append.mp hd with hd1 | hd2
      · exact update_not_mem_gcs_diff_of_same l r q h hl hr hd1
      · simp only [List.mem_singleton, PushDiff.update.injEq] at hd2
        exact hcm hd2

/-- A concrete local manifest for the push witnesses: `a.txt` is unchanged,
`b.txt` has a new digest. -/
def exLocal : Manifest :=
  { source := "gs://bucket/comstar.json"
    generated_at := 2
    entries :=
      [ { path := "a.txt", sha512 := "aa", source := "gs://bucket/a.txt" }
      , { path := "b.txt", sha512 := "b2", source := "gs://bucket/b.txt" } ] }

/-- A concrete remote manifest for the push witnesses. -/
def exRemote : Manifest :=
  { source := "gs://bucket/comstar.json"
    generated_at := 1
    entries :=
      [ { path := "a.txt", sha512 := "aa", source := "gs://bucket/a.txt" }
      , { path := "b.txt", sha512 := "b1", source := "gs://bucket/b.txt" } ] }

/-- Witness for push minimality: in a push where `b.txt` changed and `a.txt`
kept its digest, `a.txt` is not uploaded. -/
theorem push_minimality_witness :
    entrySha exLocal.entries "a.txt" = some "aa"
    ∧ entrySha exRemote.entries "a.txt" = some "aa"
    ∧ "a.txt" ∉ push_uploads exLocal (some exRemote) :=
  ⟨by decide, by decide,
    push_minimality exLocal exRemote "a.txt" "aa" (by decide) (by decide)
      (by decide)⟩

/-- C10: frame property of push. When the local and remote entry maps agree
on every path, the push diff is empty and `push_dir` performs no remote
operation at all: the work list is empty, so nothing is uploaded or deleted
and in particular the new `comstar.json` is not uploaded (the remote
manifest, its `generated_at` included, is untouched). -/
theorem push_work_empty_when_unchanged (l r : Manifest)
    (hsame : ∀ p, entrySha l.entries p = entrySha r.entries p) :
    push_work l (some r) = []
    ∧ push_uploads l (some r) = [] ∧ push_deletes l (some r) = [] := by
  have hdiff : gcs_diff_manifests l (some r) = [] := by
    rw [gcs_diff_manifests, List.append_eq_nil]
    constructor
    · rw [List.filterMap_eq_nil_iff]
      intro p hp
      obtain ⟨s, hs⟩ := entrySha_isSome_of_mem_mkeys hp
      have hrs : entrySha r.entries p = some s := by
        rw [← hsame p]
        exact hs
      rw [hrs]
      simp [hs]
    · rw [List.filterMap_eq_nil_iff]
      intro p hp
      obtain ⟨s, hs⟩ := entrySha_isSome_of_mem_mkeys hp
      have hls : entrySha l.entries p = some s := by
        rw [hsame p]
        exact hs
      have hmem : p ∈ mkeys l.entries := mem_mkeys_of_entrySha_some hls
      have hcb : (mkeys l.entries).contains p = true :=
        List.elem_eq_true_of_mem hmem
      simp only [hcb, if_true]
  have hw : push_work l (some r) = [] := by
    simp [push_work, hdiff]
  exact ⟨hw, by simp [push_uploads, hw], by simp [push_deletes, hw]⟩

/-- Witness for the push frame property: pushing a manifest against an
identical remote manifest produces an empty work list. -/
theorem push_work_empty_when_unchanged_witness :
    push_work exRemote (some exRemote) = []
    ∧ push_uploads exRemote (some exRemote) = []
    ∧ push_deletes exRemote (some exRemote) = [] :=
  push_work_empty_when_unchanged exRemote exRemote (fun _ => rfl)

/-- The generate-pipeline hashing task, from src/manifest.rs
(`hash_with_events`, lines 56-67): send `FileStarted`, hash the file with
`util::get_file_hash` (modelled as a fallible hasher, since the file may be
unreadable), and send `FileDone` only after the hash succeeds; the `?` on the
hash call returns early on failure, before `FileDone` is sent. The sync,
push, and validate per-item tasks follow the same send-started / fallible
work / send-done shape (src/sync.rs lines 115-132, src/push/gcs.rs lines
108-136, src/validate.rs lines 142-159). Returns the emitted event trace and
the task's result. -/
def hash_with_events (fileHash : String → Except String String)
    (p : String) : List Event × Except String String :=
  match fileHash p with
  | .ok s => ([.fileStarted p none, .fileDone p], .ok s)
  | .error e => ([.fileStarted p none], .error e)

/-- C4 (failing input): when hashing `a.txt` fails with an `IoError`, the
task's event trace is just `FileStarted` — no `FileDone` is emitted for the
failed item, so the header progress count does not advance for it. -/
theorem hash_with_events_no_done_on_failure :
    (hash_with_events (fun _ => .error "IoError") "a.txt").1
      = [Event.fileStarted "a.txt" none]
    ∧ Event.fileDone "a.txt"
        ∉ (hash_with_events (fun _ => .error "IoError") "a.txt").1
    ∧ (hash_with_events (fun _ => .error "IoError") "a.txt").2
        = .error "IoError" := by
  refine ⟨rfl, ?_, rfl⟩
  decide

/-- Outcome of the URL-scheme dispatch in src/manifest.rs `get_manifest`
(lines 47-53) and src/sync.rs `get_file` (lines 52-58). The constructor
`errUnsupportedScheme` is the outcome the specification's words predict (a
distinguished `UnsupportedScheme` fatal error value); `panicUnimplemented`
is a process-aborting `unimplemented!()` panic. The code contains no
`UnsupportedScheme` error kind. -/
inductive SchemeOutcome where
  | httpFetch : SchemeOutcome
  | fileFetch : SchemeOutcome
  | panicUnimplemented : SchemeOutcome
  | errUnsupportedScheme : SchemeOutcome
deriving DecidableEq, Repr

/-- Scheme dispatch of src/manifest.rs `get_manifest`: `http`/`https` fetch
over HTTP, `file` reads the filesystem, anything else hits
`unimplemented!()`. -/
def get_manifest_dispatch (scheme : String) : SchemeOutcome :=
  if scheme == "http" || scheme == "https" then .httpFetch
  else if scheme == "file" then .fileFetch
  else .panicUnimplemented

/-- Scheme dispatch of src/sync.rs `get_file`: identical structure to
`get_manifest_dispatch`. -/
def get_file_dispatch (scheme : String) : SchemeOutcome :=
  if scheme == "http" || scheme == "https" then .httpFetch
  else if scheme == "file" then .fileFetch
  else .panicUnimplemented

/-- C9 (counterexample): `gs` is outside `{http, https, file}`, yet neither
fetching a manifest nor fetching a file fails with an `UnsupportedScheme`
error — both dispatches hit the `unimplemented!()` panic arm instead. -/
theorem unsupported_scheme_not_error : ("gs" ≠ "http" ∧ "gs" ≠ "https"
      ∧ "gs" ≠ "file")
    ∧ get_manifest_dispatch "gs" ≠ SchemeOutcome.errUnsupportedScheme
    ∧ get_file_dispatch "gs" ≠ SchemeOutcome.errUnsupportedScheme := by
  decide

/-- C9 (amended): every URL scheme outside `{http, https, file}` makes
manifest fetch and file fetch abort fatally, via the `unimplemented!()`
panic arm rather than a dedicated `UnsupportedScheme` error value. -/
theorem unsupported_scheme_panics (scheme : String)
    (h1 : scheme ≠ "http") (h2 : scheme ≠ "https") (h3 : scheme ≠ "file") :
    get_manifest_dispatch scheme = SchemeOutcome.panicUnimplemented
    ∧ get_file_dispatch scheme = SchemeOutcome.panicUnimplemented := by
  have b1 : (scheme == "http") = false := beq_eq_false_iff_ne.mpr h1
  have b2 : (scheme == "https") = false := beq_eq_false_iff_ne.mpr h2
  have b3 : (scheme == "file") = false := beq_eq_false_iff_ne.mpr h3
  constructor
  · rw [get_manifest_dispatch, b1, b2, b3]
    rfl
  · rw [get_file_dispatch, b1, b2, b3]
    rfl

/-- Witness for the amended scheme claim at the concrete scheme `gs`. -/
theorem unsupported_scheme_panics_witness :
    get_manifest_dispatch "gs" = SchemeOutcome.panicUnimplemented
    ∧ get_file_dispatch "gs" = SchemeOutcome.panicUnimplemented :=
  unsupported_scheme_panics "gs" (by decide) (by decide) (by decide)

/-- Error kinds of manifest fetching relevant to the absent-vs-malformed
distinction (spec error model). -/
inductive FetchErr where
  | parseErr : FetchErr
  | networkErr : FetchErr
  | ioErr : FetchErr
deriving DecidableEq, Repr

/-- Modelled from the spec: the optional-returning `get_manifest` used by
every in-tree caller (src/validate.rs lines 67-70, src/sync.rs line 141,
src/main.rs line 152 all match on an optional manifest) is missing from
src/ — the copy of `get_manifest` in src/src/manifest.rs is an earlier
revision whose plain `Result<Manifest>` signature does not fit those
callers. Spec, section 4.4: a missing remote manifest — HTTP 404 — yields
absent; a malformed body yields `ParseError`; spec, section 7: non-2xx other
than 404 is `NetworkError`. Input: the HTTP status and the body's parse
result. -/
def get_manifest_http_model (status : Nat) (body : Option Manifest) :
    Except FetchErr (Option Manifest) :=
  if status = 404 then .ok none
  else if status < 200 || 300 ≤ status then .error .networkErr
  else
    match body with
    | some m => .ok (some m)
    | none => .error .parseErr

/-- Modelled from the spec (same gap as `get_manifest_http_model`), for
`file://` URLs: a nonexistent file yields absent, an existing file that does
not parse yields `ParseError`. Input: `none` when the file does not exist,
otherwise the parse result of its contents. -/
def get_manifest_file_model (file : Option (Option Manifest)) :
    Except FetchErr (Option Manifest) :=
  match file with
  | none => .ok none
  | some none => .error .parseErr
  | some (some m) => .ok (some m)

/-- C3: a missing remote manifest (HTTP 404, or file-not-found for
`file://`) yields the absent result `ok none`, a malformed manifest document
yields `ParseError`, and the two results are distinguishable. -/
theorem absent_manifest_distinguishable_from_parse_error (body : Option Manifest) :
    get_manifest_http_model 404 body = .ok none
    ∧ get_manifest_file_model none = .ok none
    ∧ get_manifest_http_model 200 none = .error .parseErr
    ∧ get_manifest_file_model (some none) = .error .parseErr
    ∧ (Except.ok none : Except FetchErr (Option Manifest))
        ≠ .error .parseErr := by
  refine ⟨rfl, rfl, rfl, rfl, ?_⟩
  intro h
  cases h

/-- A scheduler event of the push pipeline: work item `i` starts (its
spawned task begins, holding a semaphore permit), or finishes with success
flag `ok`. -/
inductive PEv where
  | start (i : Nat) : PEv
  | finish (i : Nat) (ok : Bool) : PEv
deriving DecidableEq, Repr

/-- Scheduler state: `next` is the index of the next work item the
orchestrator will spawn, `running` the indices currently holding a permit. -/
structure SimSt where
  next : Nat
  running : List Nat
deriving DecidableEq, Repr

/-- One admissible scheduler step for a pipeline of `n` work items under a
semaphore of width `W`, from the fan-out loop of src/push/gcs.rs `push_dir`
(lines 91-143): the orchestrator acquires a permit and spawns tasks strictly
in work-list order, a task can start only while fewer than `W` hold permits,
and any in-flight task may finish, successfully or not, in any order (task
errors only surface at the join loop after all items were spawned). -/
def pstep (n W : Nat) (st : SimSt) (e : PEv) : Option SimSt :=
  match e with
  | .start i =>
    if i = st.next ∧ st.next < n ∧ st.running.length < W then
      some { next := st.next + 1, running := i :: st.running }
    else none
  | .finish i _ =>
    if i ∈ st.running then
      some { next := st.next, running := st.running.erase i }
    else none

/-- Run a candidate event trace through the scheduler from a given state;
`none` means the trace is not admissible. -/
def runTrace (n W : Nat) : Option SimSt → List PEv → Option SimSt
  | st, [] => st
  | none, _ :: _ => none
  | some s, e :: tl => runTrace n W (pstep n W s e) tl

/-- A complete execution of the pipeline: an admissible trace that spawns
every work item and finishes every task. -/
abbrev validComplete (n W : Nat) (tr : List PEv) : Prop :=
  runTrace n W (some { next := 0, running := [] }) tr
    = some { next := n, running := [] }

/-- The work-item indices of a trace in start order. -/
def startsOf (tr : List PEv) : List Nat :=
  tr.filterMap (fun e =>
    match e with
    | .start i => some i
    | .finish _ _ => none)

/-- C2, the claimed property of push as stated: in every complete execution
of the push pipeline over the work list of `push_dir` (whose last item is
the `update comstar.json` upload), the manifest item never finishes once
some content item has failed, and whenever the manifest item finishes, every
content item has already finished successfully earlier in the trace. -/
def push_manifest_last_claim (localMan : Manifest)
    (remoteMan : Option Manifest) : Prop :=
  ∀ tr : List PEv,
    validComplete (push_work localMan remoteMan).length 10 tr →
    ((∃ i, i < (push_work localMan remoteMan).length - 1
        ∧ PEv.finish i false ∈ tr) →
      ∀ ok, PEv.finish ((push_work localMan remoteMan).length - 1) ok ∉ tr)
    ∧ (∀ pre suf ok,
        tr = pre
          ++ PEv.finish ((push_work localMan remoteMan).length - 1) ok :: suf →
        ∀ i < (push_work localMan remoteMan).length - 1,
          PEv.finish i true ∈ pre)

/-- C2 (counterexample): the appended `update comstar.json` item runs
through the same 10-permit concurrent fan-out as the content transfers, so
for the concrete push of `exLocal` against `exRemote` (work list:
`update b.txt` then `update comstar.json`) there is a complete execution in
which the manifest upload finishes first and the content upload then fails —
refuting the claim as stated. -/
theorem push_manifest_last_refuted :
    ¬ push_manifest_last_claim exLocal (some exRemote) := by
  intro h
  have hlen : (push_work exLocal (some exRemote)).length = 2 := by decide
  have hv : validComplete (push_work exLocal (some exRemote)).length 10
      [PEv.start 0, PEv.start 1, PEv.finish 1 true, PEv.finish 0 false] := by
    rw [hlen]
    decide
  have h2 := (h _ hv).1
  have h3 := h2 ⟨0, by rw [hlen]; decide, by decide⟩ true
  rw [hlen] at h3
  exact h3 (by decide)

/-- An inadmissible prefix never recovers. -/
theorem runTrace_of_none (n W : Nat) (tr : List PEv) :
    runTrace n W none tr = none := by
  cases tr <;> rfl

/-- Along any admissible run of the scheduler, the started indices are
exactly the consecutive block of work-list indices consumed from the initial
state's `next` on: tasks start strictly in work-list order. -/
theorem startsOf_runTrace (n W : Nat) (tr : List PEv) :
    ∀ st0 st : SimSt, runTrace n W (some st0) tr = some st →
    st0.next ≤ st.next
    ∧ startsOf tr = List.range' st0.next (st.next - st0.next) := by
  induction tr with
  | nil =>
    intro st0 st h
    cases h
    exact ⟨Nat.le_refl _, by simp [startsOf]⟩
  | cons e tl ih =>
    intro st0 st h
    have h' : runTrace n W (pstep n W st0 e) tl = some st := h
    cases e with
    | start i =>
      rw [pstep] at h'
      split at h'
      · rename_i hc
        obtain ⟨hc1, hc2, hc3⟩ := hc
        obtain ⟨hle, hs⟩ := ih _ _ h'
        simp only at hle hs
        refine ⟨by omega, ?_⟩
        have harith : st.next - st0.next = (st.next - (st0.next + 1)) + 1 := by
          omega
        rw [startsOf, List.filterMap_cons]
        simp only
        rw [harith, List.range'_succ st0.next _ 1]
        rw [show startsOf tl = List.filterMap _ tl from rfl] at hs
        rw [hs, hc1]
      · rw [runTrace_of_none] at h'
        cases h'
    | finish i b =>
      rw [pstep] at h'
      split at h'
      · obtain ⟨hle, hs⟩ := ih _ _ h'
        simp only at hle hs
        refine ⟨hle, ?_⟩
        rw [startsOf, List.filterMap_cons]
        simp only
        rw [show startsOf tl = List.filterMap _ tl from rfl] at hs
        rw [hs]
      · rw [runTrace_of_none] at h'
        cases h'

/-- C2 (amended): `push_dir` appends the `update comstar.json` item at the
end of the work list, and only when the diff is nonempty, and the scheduler
spawns tasks strictly in work-list order, so the manifest upload is the last
task started in every complete execution; but it runs through the same
10-permit concurrent fan-out as the content transfers, so complete
executions exist in which it finishes before a content transfer — including
one where that transfer then fails, with the manifest upload already done. -/
theorem push_manifest_enqueued_last_only :
    (∀ (l : Manifest) (r : Option Manifest), gcs_diff_manifests l r ≠ [] →
      (push_work l r).getLast? = some (PushDiff.update "comstar.json"))
    ∧ (∀ n W tr, validComplete n W tr → startsOf tr = List.range n)
    ∧ (∃ tr, validComplete 2 10 tr ∧ PEv.finish 0 false ∈ tr
        ∧ ∃ pre suf, tr = pre ++ PEv.finish 1 true :: suf
          ∧ PEv.finish 0 true ∉ pre) := by
  refine ⟨?_, ?_, ?_⟩
  · intro l r hne
    rw [push_work]
    simp only [List.isEmpty_iff]
    rw [if_neg hne]
    exact List.getLast?_concat _
  · intro n W tr hv
    obtain ⟨-, hs⟩ := startsOf_runTrace n W tr ⟨0, []⟩ ⟨n, []⟩ hv
    simp only at hs
    rw [List.range_eq_range']
    simpa using hs
  · refine ⟨[PEv.start 0, PEv.start 1, PEv.finish 1 true, PEv.finish 0 false],
      by decide, by decide,
      [PEv.start 0, PEv.start 1], [PEv.finish 0 false], rfl, by decide⟩

/-- Witness for the amended push-ordering claim: concrete instances of its
two hypothesised parts. -/
theorem push_manifest_enqueued_last_only_witness :
    (push_work exLocal (some exRemote)).getLast?
      = some (PushDiff.update "comstar.json")
    ∧ startsOf [PEv.start 0, PEv.start 1, PEv.finish 1 true,
        PEv.finish 0 false] = List.range 2 :=
  ⟨push_manifest_enqueued_last_only.1 exLocal (some exRemote) (by decide),
   push_manifest_enqueued_last_only.2.1 2 10
     [PEv.start 0, PEv.start 1, PEv.finish 1 true, PEv.finish 0 false]
     (by decide)⟩

/-- Result of a sync run: the final directory, the cached local manifest
(the parse of `D/comstar.json`), and the file writes performed — downloaded
paths, deleted paths, and how many times the local manifest cache was
written. -/
structure SyncResult where
  dir : Dir
  localMan : Option Manifest
  downloads : List String
  deletions : List String
  manifestWrites : Nat
deriving DecidableEq, Repr

/-- Overwrite one file in the tree (parents created implicitly, the write
truncates). -/
def dirInsert (d : Dir) (p c : String) : Dir :=
  (d.filter (fun pc => pc.1 != p)) ++ [(p, c)]

/-- Delete one file from the tree. -/
def dirErase (d : Dir) (p : String) : Dir :=
  d.filter (fun pc => pc.1 != p)

/-- The diff computed at the top of src/sync.rs `sync_manifest` (lines
72-95): when a local `comstar.json` exists (here: parses to `localMan = some
lm`) and `--validate` was not passed, the manifest fast path diffs the
remote manifest against the local one; otherwise the full tree validation
runs. -/
def sync_diff (hash : String → String) (ign : String → Bool) (m : Manifest)
    (d : Dir) (localMan : Option Manifest) (force forceValidate : Bool) :
    List ValidationDifference :=
  match localMan, forceValidate with
  | some lm, false => diff_manifests m lm force
  | _, _ => verify_manifest hash ign m d force

/-- Apply the diff items of a sync run, from the fan-out loop of src/sync.rs
`sync_manifest` (lines 110-135): `FileMissing` and `HashMismatch` fetch the
entry's source URL into the tree, `UnknownFile` deletes the local file, and
a failed fetch fails the pipeline. The concurrent items touch pairwise
distinct paths, so the sequential fold denotes the final tree. Returns the
new tree plus the downloaded and deleted paths. -/
def sync_apply (remote : String → Option String) (d : Dir)
    (items : List ValidationDifference) :
    Except String (Dir × List String × List String) :=
  items.foldl (fun acc it =>
    match acc with
    | .error e => .error e
    | .ok (cur, dls, dels) =>
      match it.ty with
      | .fileMissing entry =>
        match remote entry.source with
        | some c => .ok (dirInsert cur it.path c, dls ++ [it.path], dels)
        | none => .error "fetch failed"
      | .hashMismatch upstream _ =>
        match remote upstream.source with
        | some c => .ok (dirInsert cur it.path c, dls ++ [it.path], dels)
        | none => .error "fetch failed"
      | .unknownFile => .ok (dirErase cur it.path, dls, dels ++ [it.path]))
    (.ok (d, [], []))

/-- The sync orchestrator, from src/sync.rs `sync_manifest` (lines 66-149),
over a fixed abstract world: `m` is the manifest served at the target URL
(the world does not change, so the closing refetch returns `m` again) and
`remote` gives the content served at each source URL. An empty diff returns
before any file is written (lines 98-100); otherwise the diff is applied
and the refetched manifest is written to the local `comstar.json` cache.
The cache write models `manifest::write_manifest`, which is called at
src/sync.rs line 147 but absent from src/ — modelled from the spec
(section 6 and the glossary: sync caches the manifest document locally). -/
def sync_manifest (hash : String → String) (ign : String → Bool)
    (remote : String → Option String) (m : Manifest) (d : Dir)
    (localMan : Option Manifest) (force forceValidate : Bool) :
    Except String SyncResult :=
  if (sync_diff hash ign m d localMan force forceValidate).isEmpty then
    .ok { dir := d, localMan := localMan, downloads := [], deletions := [],
          manifestWrites := 0 }
  else
    match sync_apply remote d
        (sync_diff hash ign m d localMan force forceValidate) with
    | .error e => .error e
    | .ok (d2, dls, dels) =>
      .ok { dir := d2, localMan := some m, downloads := dls,
            deletions := dels, manifestWrites := 1 }

/-- Diffing a manifest against itself yields no differences. -/
theorem diff_manifests_self (m : Manifest) (force : Bool) :
    diff_manifests m m force = [] := by
  rw [diff_manifests, List.append_eq_nil]
  constructor
  · rw [List.filterMap_eq_nil_iff]
    intro p _
    cases ha : entryAt m.entries p with
    | none => rfl
    | some v => simp
  · cases force with
    | false => rfl
    | true =>
      simp only [if_true]
      rw [List.filterMap_eq_nil_iff]
      intro p hp
      have hcb : (mkeys m.entries).contains p = true :=
        List.elem_eq_true_of_mem hp
      simp only [hcb, if_true]

/-- C8: idempotence of sync. If syncing directory `D` against manifest `m`
completes successfully, an immediately following sync of the resulting state
against the same manifest performs no file writes: no downloads, no
deletions, and no rewrite of the cached local `comstar.json`. (With default
flags: `--validate` off; `force` arbitrary.) -/
theorem sync_idempotent (hash : String → String) (ign : String → Bool)
    (remote : String → Option String) (m : Manifest) (d : Dir)
    (localMan : Option Manifest) (force : Bool) (r : SyncResult)
    (h : sync_manifest hash ign remote m d localMan force false = .ok r) :
    sync_manifest hash ign remote m r.dir r.localMan force false
      = .ok { dir := r.dir, localMan := r.localMan, downloads := [],
              deletions := [], manifestWrites := 0 } := by
  by_cases hemp : (sync_diff hash ign m d localMan force false).isEmpty = true
  · rw [sync_manifest, if_pos hemp] at h
    simp only [Except.ok.injEq] at h
    subst h
    simp only
    rw [sync_manifest, if_pos hemp]
  · rw [sync_manifest, if_neg hemp] at h
    cases happ : sync_apply remote d
        (sync_diff hash ign m d localMan force false) with
    | error e =>
      rw [happ] at h
      cases h
    | ok t =>
      rw [happ] at h
      obtain ⟨d2, dls, dels⟩ := t
      simp only [Except.ok.injEq] at h
      subst h
      simp only
      have hd : sync_diff hash ign m d2 (some m) force false = [] := by
        rw [sync_diff]
        exact diff_manifests_self m force
      rw [sync_manifest, hd]
      rfl

/-- Concrete manifest for the sync witness: one file `a.txt` with content
`x`, hashed by the identity digest. -/
def syncExManifest : Manifest :=
  { source := "u/comstar.json"
    generated_at := 0
    entries := [ { path := "a.txt", sha512 := "x", source := "u/a.txt" } ] }

/-- Expected result of the first sync in the witness: `a.txt` downloaded,
the manifest cached. -/
def syncExResult : SyncResult :=
  { dir := [("a.txt", "x")]
    localMan := some syncExManifest
    downloads := ["a.txt"]
    deletions := []
    manifestWrites := 1 }

/-- Witness for sync idempotence: a concrete first sync that downloads one
file and caches the manifest, after which the second sync writes nothing. -/
theorem sync_idempotent_witness :
    sync_manifest (fun c => c) (fun _ => false)
      (fun u => if u == "u/a.txt" then some "x" else none)
      syncExManifest [] none false false = .ok syncExResult
    ∧ sync_manifest (fun c => c) (fun _ => false)
      (fun u => if u == "u/a.txt" then some "x" else none)
      syncExManifest syncExResult.dir syncExResult.localMan false false
      = .ok { dir := syncExResult.dir, localMan := syncExResult.localMan,
              downloads := [], deletions := [], manifestWrites := 0 } :=
  ⟨by rfl,
   sync_idempotent (fun c => c) (fun _ => false)
     (fun u => if u == "u/a.txt" then some "x" else none)
     syncExManifest [] none false syncExResult (by rfl)⟩
